import Mathlib

/-!
Shallow embedding of the lambda-calculus tokenizer and recursive-descent
parser of `A1.py`, together with theorems settling the specification
claims against it.

Modelling conventions:
* A line of input is its list of characters (`List Char`); indices are `Nat`.
* Python functions that print a diagnostic and return `False` are modelled
  as `Except` values carrying a structured error mirroring each diagnostic
  (constructor fields record the index interpolated into the message).
* The scanning loop of `parse_tokens` and the mutually recursive parser
  methods are written with an explicit fuel parameter so that every
  definition is structurally recursive and kernel-evaluable; a dedicated
  `outOfFuel` error marks fuel exhaustion, and the fuel supplied by the
  wrappers is proved sufficient (the exhaustion error is unreachable).
* Python `str.isspace` on single characters is modelled on the ASCII
  range; `str.isalpha` is modelled exactly on ASCII and on the Latin-1
  Supplement (letters above `U+00FF` are outside the model), which is
  enough to exhibit its Unicode behaviour in the tokenizer's unguarded
  backslash look-ahead.
-/

namespace A1

/-- Source list `alphabet_chars`: lowercase then uppercase ASCII letters. -/
def alphabet_chars : List Char :=
  "abcdefghijklmnopqrstuvwxyz".toList ++ "ABCDEFGHIJKLMNOPQRSTUVWXYZ".toList

/-- Source list `numeric_chars`: the decimal digits. -/
def numeric_chars : List Char := "0123456789".toList

/-- Source list `var_chars = alphabet_chars + numeric_chars`. -/
def var_chars : List Char := alphabet_chars ++ numeric_chars

/-- Source list `all_valid_chars = var_chars + ["(", ")", ".", "\\"]`. -/
def all_valid_chars : List Char := var_chars ++ ['(', ')', '.', '\\']

/-- Letters of the Latin-1 Supplement by code point: `ª` (170), `µ` (181),
`º` (186), and `À`–`ÿ` (192–255) without the two signs `×` (215) and
`÷` (247); exactly the characters of that range on which Python's
`str.isalpha` is true. -/
def latin1_letter (n : Nat) : Bool :=
  n == 170 || n == 181 || n == 186 ||
    (decide (192 ≤ n) && decide (n ≤ 255) && !(n == 215) && !(n == 247))

/-- Model of Python `char.isalpha()` for the single characters scanned by
the tokenizer: exact on ASCII and on the whole Latin-1 range (letters above
`U+00FF` are not modelled).  The plain-variable branch applies it only
under a preceding `all_valid_chars` guard, where the ASCII part suffices;
the backslash look-ahead (`A1.py` line 127) applies it with no such guard,
where the Latin-1 letters exhibit Python's Unicode behaviour (claim C7). -/
def py_isalpha (c : Char) : Bool :=
  decide (c ∈ alphabet_chars) || latin1_letter c.toNat

/-- Model of Python `char.isspace()`: ASCII whitespace. -/
def py_isspace (c : Char) : Bool :=
  decide (c ∈ [' ', '\t', '\n', '\r', '\x0b', '\x0c'])

/-- Translation of `is_valid_var_name`: non-empty, first character in
`alphabet_chars`, and every character in `all_valid_chars`. -/
def is_valid_var_name (s : String) : Bool :=
  match s.toList with
  | [] => false
  | c :: rest =>
    decide (c ∈ alphabet_chars) &&
      (c :: rest).all (fun ch => decide (ch ∈ all_valid_chars))

/-- The inner scanning loops of `parse_tokens`
(`while i < len(s) and s[i] in var_chars: var_name += s[i]; i += 1`):
extends `name` with the maximal run of `var_chars` characters starting at
index `i` and returns the extended name together with the index just past
the run. -/
def collect_var (s : List Char) (i : Nat) (name : List Char) :
    List Char × Nat :=
  let run := (s.drop i).takeWhile (fun c => decide (c ∈ var_chars))
  (name ++ run, i + run.length)

/-- Structured counterpart of the diagnostics printed by `parse_tokens`
(each constructor records the index interpolated into the printed message);
`emptyTokens` is the silent `return False` on an empty token list, and
`outOfFuel` marks exhaustion of the explicit fuel of the loop model. -/
inductive TokError where
  | outOfFuel
  | invalidChar (c : Char) (i : Nat)
  | invalidVarName (name : String) (i : Nat)
  | emptyParens (i : Nat)
  | unmatchedClose (i : Nat)
  | spaceAfterBackslash (i : Nat)
  | backslashNoVar (i : Nat)
  | invalidVarAfterBackslash (name : String) (i : Nat)
  | missingExprAfterLambda (i : Nat)
  | dotNoVarBefore (i : Nat)
  | missingExprAfterDot (i : Nat)
  | unmatchedOpen (i : Nat)
  | emptyTokens
  deriving DecidableEq

/-- Python membership test of a token string in a list of one-character
strings (`tokens[-1] in var_chars`, where `var_chars` holds single-character
strings): true iff the token is a single character belonging to the list. -/
def strInCharList (t : String) (cs : List Char) : Bool :=
  match t.toList with
  | [c] => decide (c ∈ cs)
  | _ => false

/-- The end-of-input padding of `parse_tokens` (lines 174-177): compare the
count of `(` tokens with the count of `)` tokens and append trailing `)`
tokens to make them equal (the counts include the virtual dot-opens). -/
def pad_tokens (tokens : List String) : List String :=
  if tokens.count ")" < tokens.count "(" then
    tokens ++ List.replicate (tokens.count "(" - tokens.count ")") ")"
  else tokens

/-- One iteration of the `while i < len(s)` loop of `parse_tokens` (the
argument `recur` is the continuation that runs the remaining iterations).
`s` is the whole input line (needed for the `s[i-1]` look-behind of the dot
rule and the `s.index(...)` calls in diagnostics), `i` the scan cursor,
`tokens` the emitted tokens and `openParens` the count of unmatched
explicit `(`.  The end-of-input reconciliation (unmatched `(` check,
padding of trailing `)` tokens, empty check) is the `i ≥ len` branch. -/
def tokenStep
    (recur : List Char → Nat → List String → Nat →
      Except TokError (List String))
    (s : List Char) (i : Nat) (tokens : List String) (openParens : Nat) :
    Except TokError (List String) :=
    if hi : i < s.length then
      if py_isspace (s.get ⟨i, hi⟩) then
        recur s (i+1) tokens openParens
      else if ¬ (s.get ⟨i, hi⟩ ∈ all_valid_chars) then
        .error (.invalidChar (s.get ⟨i, hi⟩) i)
      else if py_isalpha (s.get ⟨i, hi⟩) then
        if is_valid_var_name ⟨(collect_var s (i+1) [s.get ⟨i, hi⟩]).1⟩ then
          recur s (collect_var s (i+1) [s.get ⟨i, hi⟩]).2
            (tokens ++ [⟨(collect_var s (i+1) [s.get ⟨i, hi⟩]).1⟩]) openParens
        else
          .error (.invalidVarName ⟨(collect_var s (i+1) [s.get ⟨i, hi⟩]).1⟩
            (collect_var s (i+1) [s.get ⟨i, hi⟩]).2)
      else if s.get ⟨i, hi⟩ = '(' then
        if i+1 < s.length ∧ s.getD (i+1) ' ' = ')' then
          .error (.emptyParens (i+1))
        else
          recur s (i+1) (tokens ++ ["("]) (openParens + 1)
      else if s.get ⟨i, hi⟩ = ')' then
        if openParens = 0 then
          .error (.unmatchedClose i)
        else
          recur s (i+1) (tokens ++ [")"]) (openParens - 1)
      else if s.get ⟨i, hi⟩ = '\\' then
        if i+1 < s.length ∧ py_isspace (s.getD (i+1) ' ') then
          .error (.spaceAfterBackslash i)
        else if i+1 = s.length ∨ ¬ py_isalpha (s.getD (i+1) ' ') then
          .error (.backslashNoVar i)
        else
          if is_valid_var_name
              ⟨(collect_var s (i+2) [s.getD (i+1) ' ']).1⟩ then
            if s.length ≤ (collect_var s (i+2) [s.getD (i+1) ' ']).2 ∨
                (¬ (s.getD (collect_var s (i+2) [s.getD (i+1) ' ']).2 ' '
                      ∈ all_valid_chars) ∧
                  ¬ py_isspace
                      (s.getD (collect_var s (i+2) [s.getD (i+1) ' ']).2 ' ')) then
              .error (.missingExprAfterLambda (s.indexOf '\\'))
            else
              recur s (collect_var s (i+2) [s.getD (i+1) ' ']).2
                (tokens ++ ["\\", ⟨(collect_var s (i+2) [s.getD (i+1) ' ']).1⟩])
                openParens
          else
            .error (.invalidVarAfterBackslash
              ⟨(collect_var s (i+2) [s.getD (i+1) ' ']).1⟩
              (collect_var s (i+2) [s.getD (i+1) ' ']).2)
      else if s.get ⟨i, hi⟩ = '.' then
        if tokens.length = 0 ∨ ¬ strInCharList (tokens.getLastD "") var_chars
            ∨ ¬ ((s.getD (i-1) ' ') ∈ var_chars) then
          .error (.dotNoVarBefore i)
        else if s.length ≤ i+1 ∨ s.getD (i+1) ' ' = ')' then
          .error (.missingExprAfterDot (i+1))
        else
          recur s (i+1) (tokens ++ ["("]) openParens
      else
        .error (.invalidChar (s.get ⟨i, hi⟩) i)
    else
      if 0 < openParens then
        .error (.unmatchedOpen (s.indexOf '('))
      else if (pad_tokens tokens).isEmpty then
        .error .emptyTokens
      else
        .ok (pad_tokens tokens)

/-- The scanning loop of `parse_tokens` with explicit fuel: one unit per
iteration of `tokenStep`. -/
def tokenLoopF : Nat → List Char → Nat → List String → Nat →
    Except TokError (List String)
  | 0, _, _, _, _ => .error .outOfFuel
  | fuel+1, s, i, tokens, openParens =>
    tokenStep (tokenLoopF fuel) s i tokens openParens

/-- Translation of `parse_tokens(s_)`: run the scanning loop from index `0`
with no tokens and no open parens.  One unit of fuel is consumed per loop
iteration and every iteration advances the cursor, so `length + 1` units
are sufficient (proved below: the `outOfFuel` result is unreachable). -/
def parse_tokens (s_ : String) : Except TokError (List String) :=
  tokenLoopF (s_.toList.length + 1) s_.toList 0 [] 0

/-- Translation of the `Node` class: a tag string and a list of children
(children are added in construction order). -/
inductive Node where
  | mk (elem : String) (children : List Node)

/-- The `elem` attribute of a `Node`. -/
def Node.elem : Node → String
  | .mk e _ => e

/-- The `children` attribute of a `Node`. -/
def Node.children : Node → List Node
  | .mk _ cs => cs

/-- Structured counterpart of the `SyntaxError`s raised by the parser
methods; `outOfFuel` marks exhaustion of the explicit fuel. -/
inductive ParseError where
  | outOfFuel
  | unexpectedEnd
  | unexpectedToken (t : String)
  | expectedVar (found : Option String)
  | expectedTok (expected : String) (found : Option String)
  deriving DecidableEq

/-- Model of Python `str.isalpha()` on a whole token string: non-empty and
every character an ASCII letter. -/
def py_str_isalpha (t : String) : Bool :=
  !t.toList.isEmpty && t.toList.all py_isalpha

/-- `Parser.advance`: move the position forward, but never past the end. -/
def advance (tokens : List String) (pos : Nat) : Nat :=
  if pos < tokens.length then pos + 1 else pos

/-- `Parser.expect`: require the current token to equal `v` and advance. -/
def expect (tokens : List String) (pos : Nat) (v : String) :
    Except ParseError Nat :=
  match tokens[pos]? with
  | none => .error (.expectedTok v none)
  | some t => if t ≠ v then .error (.expectedTok v (some t)) else
      .ok (advance tokens pos)

/-- `Parser.parse_var`: the current token must be a (purely alphabetic,
per `str.isalpha`) variable; returns a leaf node carrying it. -/
def parse_varF (tokens : List String) (pos : Nat) :
    Except ParseError (Node × Nat) :=
  match tokens[pos]? with
  | none => .error (.expectedVar none)
  | some t =>
    if py_str_isalpha t then .ok (Node.mk t [], advance tokens pos)
    else .error (.expectedVar (some t))

mutual

/-- `Parser.parse_expr`: parse one term, then fold further terms into
left-associated `application function` nodes (the `while True` loop is
`parse_expr_loopF`). -/
def parse_exprF : Nat → List String → Nat → Except ParseError (Node × Nat)
  | 0, _, _ => .error .outOfFuel
  | fuel+1, tokens, pos =>
    match parse_termF fuel tokens pos with
    | .error e => .error e
    | .ok (left, pos1) => parse_expr_loopF fuel tokens pos1 left
termination_by structural fuel => fuel

/-- The `while True` loop inside `Parser.parse_expr`: stop at end of input
or at a `)` token, otherwise parse a further term and wrap it with the
accumulator in an `application function` node. -/
def parse_expr_loopF : Nat → List String → Nat → Node →
    Except ParseError (Node × Nat)
  | 0, _, _, _ => .error .outOfFuel
  | fuel+1, tokens, pos, left =>
    match tokens[pos]? with
    | none => .ok (left, pos)
    | some t =>
      if t = ")" then .ok (left, pos)
      else
        match parse_termF fuel tokens pos with
        | .error e => .error e
        | .ok (right, pos1) =>
          parse_expr_loopF fuel tokens pos1
            (Node.mk "application function" [left, right])
termination_by structural fuel _ _ _ => fuel

/-- `Parser.parse_term`: dispatch on the current token
(`token.isalpha()` → variable, `\` → lambda, `(` → parenthesised
expression, anything else a hard `Unexpected token` error). -/
def parse_termF : Nat → List String → Nat → Except ParseError (Node × Nat)
  | 0, _, _ => .error .outOfFuel
  | fuel+1, tokens, pos =>
    match tokens[pos]? with
    | none => .error .unexpectedEnd
    | some t =>
      if py_str_isalpha t then parse_varF tokens pos
      else if t = "\\" then parse_lambda_exprF fuel tokens pos
      else if t = "(" then parse_paren_exprF fuel tokens pos
      else .error (.unexpectedToken t)
termination_by structural fuel => fuel

/-- `Parser.parse_lambda_expr`: consume `\`, one variable, then a body
expression; children are `[backslash marker, variable, body]`. -/
def parse_lambda_exprF : Nat → List String → Nat →
    Except ParseError (Node × Nat)
  | 0, _, _ => .error .outOfFuel
  | fuel+1, tokens, pos =>
    match expect tokens pos "\\" with
    | .error e => .error e
    | .ok pos1 =>
      match parse_varF tokens pos1 with
      | .error e => .error e
      | .ok (varNode, pos2) =>
        match parse_exprF fuel tokens pos2 with
        | .error e => .error e
        | .ok (exprNode, pos3) =>
          .ok (Node.mk "lambda" [Node.mk "\\" [], varNode, exprNode], pos3)
termination_by structural fuel => fuel

/-- `Parser.parse_paren_expr`: consume `(`, an inner expression, then `)`;
children are `[open marker, inner expression, close marker]`. -/
def parse_paren_exprF : Nat → List String → Nat →
    Except ParseError (Node × Nat)
  | 0, _, _ => .error .outOfFuel
  | fuel+1, tokens, pos =>
    match expect tokens pos "(" with
    | .error e => .error e
    | .ok pos1 =>
      match parse_exprF fuel tokens pos1 with
      | .error e => .error e
      | .ok (exprNode, pos2) =>
        match expect tokens pos2 ")" with
        | .error e => .error e
        | .ok pos3 =>
          .ok (Node.mk "parens"
            [Node.mk "(" [], exprNode, Node.mk ")" []], pos3)
termination_by structural fuel => fuel

end

/-- `Parser(tokens).parse()`, i.e. a top-level `parse_expr` from position
`0` (with fuel `4 * length + 4`, proved sufficient below). -/
def parse (tokens : List String) : Except ParseError (Node × Nat) :=
  parse_exprF (4 * tokens.length + 4) tokens 0

/-- Classifier: true exactly on the fuel-exhaustion result of the
tokenizer model. -/
def tokFuelErr : Except TokError (List String) → Bool
  | .error .outOfFuel => true
  | _ => false

/-- Classifier: true exactly on the fuel-exhaustion result of the parser
model. -/
def parseFuelErr : Except ParseError (Node × Nat) → Bool
  | .error .outOfFuel => true
  | _ => false

/-- Classifier: true exactly on the two `Invalid variable name` rejections
of the tokenizer. -/
def invalidNameErr : Except TokError (List String) → Bool
  | .error (.invalidVarName _ _) => true
  | .error (.invalidVarAfterBackslash _ _) => true
  | _ => false

/-- Classifier: true exactly on the plain-variable `Invalid variable name`
rejection of the tokenizer. -/
def invalidVarNameErr : Except TokError (List String) → Bool
  | .error (.invalidVarName _ _) => true
  | _ => false

example : parse_tokens "x" = .ok ["x"] := rfl

example : parse_tokens "\\x.x" = .ok ["\\", "x", "(", "x", ")"] := rfl

example : parse_tokens "(\\x.x)y" =
    .ok ["(", "\\", "x", "(", "x", ")", "y", ")"] := rfl

example : parse ["x", "y"] =
    .ok (Node.mk "application function" [Node.mk "x" [], Node.mk "y" []], 2) :=
  rfl

/-! ## Helper lemmas -/

theorem collect_var_le (s : List Char) (i : Nat) (name : List Char) :
    i ≤ (collect_var s i name).2 :=
  Nat.le_add_right i _

theorem mem_var_chars_of_mem_collect (s : List Char) (i : Nat)
    (name : List Char) (c : Char) (hc : c ∈ (collect_var s i name).1) :
    c ∈ name ∨ c ∈ var_chars := by
  simp only [collect_var, List.mem_append] at hc
  rcases hc with h | h
  · exact Or.inl h
  · exact Or.inr (of_decide_eq_true
      (@List.mem_takeWhile_imp Char
        (fun ch => decide (ch ∈ var_chars)) (s.drop i) c h))

theorem mem_all_valid_of_var {c : Char} (h : c ∈ var_chars) :
    c ∈ all_valid_chars :=
  List.mem_append_left _ h

theorem mem_var_of_alphabet {c : Char} (h : c ∈ alphabet_chars) :
    c ∈ var_chars :=
  List.mem_append_left _ h

theorem is_valid_var_name_collect (s : List Char) (i : Nat) (c : Char)
    (hc : c ∈ alphabet_chars) :
    is_valid_var_name ⟨(collect_var s i [c]).1⟩ = true := by
  have hchars : ∀ ch ∈ (collect_var s i [c]).1, ch ∈ all_valid_chars := by
    intro ch hch
    rcases mem_var_chars_of_mem_collect s i [c] ch hch with h | h
    · simp only [List.mem_singleton] at h
      exact h ▸ mem_all_valid_of_var (mem_var_of_alphabet hc)
    · exact mem_all_valid_of_var h
  have hcons : (collect_var s i [c]).1 =
      c :: (s.drop i).takeWhile (fun ch => decide (ch ∈ var_chars)) := by
    simp [collect_var]
  rw [is_valid_var_name]
  have htl : (String.mk (collect_var s i [c]).1).toList =
      (collect_var s i [c]).1 := rfl
  rw [htl, hcons]
  simp only [decide_eq_true_eq, Bool.and_eq_true, List.all_eq_true]
  refine ⟨hc, ?_⟩
  intro ch hch
  rw [← hcons] at hch
  exact hchars ch hch

theorem valid_name_ne_paren {t : String} (h : is_valid_var_name t = true) :
    t ≠ "(" ∧ t ≠ ")" ∧ t ≠ "\\" := by
  refine ⟨?_, ?_, ?_⟩ <;> rintro rfl <;> simp [is_valid_var_name] at h <;>
    revert h <;> decide

theorem getD_mem_of_lt {s : List Char} {i : Nat} (h : i < s.length) :
    s.getD i ' ' ∈ s := by
  induction s generalizing i with
  | nil =>
    simp only [List.length_nil] at h
    exact absurd h (Nat.not_lt_zero i)
  | cons a l ihl =>
    cases i with
    | zero =>
      simp only [List.getD_cons_zero]
      exact List.mem_cons_self a l
    | succ k =>
      simp only [List.getD_cons_succ]
      refine List.mem_cons_of_mem a (ihl ?_)
      simp only [List.length_cons] at h
      omega

theorem latin1_letter_ge {n : Nat} (h : latin1_letter n = true) : 170 ≤ n := by
  unfold latin1_letter at h
  simp only [Bool.or_eq_true, Bool.and_eq_true, beq_iff_eq,
    decide_eq_true_eq, Bool.not_eq_true'] at h
  obtain ((h | h) | h) | ⟨⟨⟨h, -⟩, -⟩, -⟩ := h <;> omega

theorem alphabet_of_py_isalpha_ascii {c : Char} (h1 : py_isalpha c = true)
    (h2 : c.toNat < 128) : c ∈ alphabet_chars := by
  unfold py_isalpha at h1
  simp only [Bool.or_eq_true] at h1
  rcases h1 with h | h
  · exact of_decide_eq_true h
  · exact absurd (latin1_letter_ge h) (by omega)

theorem all_valid_chars_ascii : ∀ c ∈ all_valid_chars, c.toNat < 128 := by
  decide

theorem alphabet_of_py_isalpha_valid {c : Char} (h1 : py_isalpha c = true)
    (h2 : c ∈ all_valid_chars) : c ∈ alphabet_chars :=
  alphabet_of_py_isalpha_ascii h1 (all_valid_chars_ascii c h2)

/-! ## Claim theorems: concrete evaluations -/

/-- C1 (counterexample): the input `(\x.x)y` tokenizes successfully, but the
top node of the resulting parse is a `parens` (Grouped) node, not the
`application function` node the claim asserts: the trailing `)` that
balances the dot's virtual `(` is appended after `y`, so the abstraction
body swallows `y`. -/
theorem C1_counterexample :
    parse_tokens "(\\x.x)y" = .ok ["(", "\\", "x", "(", "x", ")", "y", ")"] ∧
    (parse ["(", "\\", "x", "(", "x", ")", "y", ")"]).toOption.map
      (fun r => Node.elem r.1) = some "parens" :=
  ⟨rfl, rfl⟩

/-- C1 (amended): `(\x.x)y` tokenizes to `( \ x ( x ) y )` and parses to a
Grouped node containing the abstraction of `x` whose body is the
application of the Grouped variable `x` to the variable `y`; the
position after the top-level parse is `8`. -/
theorem C1_grouped_abstraction :
    parse_tokens "(\\x.x)y" = .ok ["(", "\\", "x", "(", "x", ")", "y", ")"] ∧
    parse ["(", "\\", "x", "(", "x", ")", "y", ")"] =
      .ok (Node.mk "parens"
        [Node.mk "(" [],
         Node.mk "lambda"
           [Node.mk "\\" [], Node.mk "x" [],
            Node.mk "application function"
              [Node.mk "parens"
                [Node.mk "(" [], Node.mk "x" [], Node.mk ")" []],
               Node.mk "y" []]],
         Node.mk ")" []], 8) :=
  ⟨rfl, rfl⟩

/-- C2 (code bug): the dot rule checks `tokens[-1] not in var_chars`, i.e.
membership of the whole previous token string in a list of single-character
strings, so any multi-character variable before a `.` is rejected with the
`must have a variable name before '.'` diagnostic even though the previous
token is a Variable; a single-character variable is accepted. -/
theorem C2_multichar_dot_rejected :
    parse_tokens "xy.x" = .error (.dotNoVarBefore 2) ∧
    parse_tokens "x.y" = .ok ["x", "(", "y", ")"] :=
  ⟨rfl, rfl⟩

/-- C3 (code bug): the tokenizer emits `x1` as a Variable token, but
`parse_term` dispatches on `token.isalpha()`, which is false for `x1`
(it contains a digit), so the parser raises `Unexpected token: x1`
instead of returning a leaf node. -/
theorem C3_var_token_rejected :
    parse_tokens "x1" = .ok ["x1"] ∧
    parse ["x1"] = .error (.unexpectedToken "x1") :=
  ⟨rfl, rfl⟩

/-- C6: the tokenizer rejects the empty string, a lone `(`, a lone `)`,
`\x` with no body, and the empty parentheses `()`. -/
theorem C6_boundary_rejections :
    parse_tokens "" = .error .emptyTokens ∧
    parse_tokens "(" = .error (.unmatchedOpen 0) ∧
    parse_tokens ")" = .error (.unmatchedClose 0) ∧
    parse_tokens "\\x" = .error (.missingExprAfterLambda 0) ∧
    parse_tokens "()" = .error (.emptyParens 1) :=
  ⟨rfl, rfl, rfl, rfl, rfl⟩

/-- C9: on the token sequence `x )` the top-level parse succeeds with the
leaf `x` while the position cursor stands at `1`, short of the end of the
two-token sequence: trailing unconsumed tokens are silently ignored
(no end-of-input check follows the top-level `parse_expr` call). -/
theorem C9_trailing_tokens_ignored :
    parse ["x", ")"] = .ok (Node.mk "x" [], 1) ∧
    1 < (["x", ")"] : List String).length :=
  ⟨rfl, by decide⟩

/-! ## Counting helpers -/

theorem count_append_singleton (ts : List String) (t x : String) :
    (ts ++ [t]).count x = ts.count x + (if t = x then 1 else 0) := by
  by_cases h : t = x
  · subst h; simp [List.count_append]
  · rw [List.count_append, if_neg h]
    have h0 : List.count x [t] = 0 :=
      List.count_eq_zero.mpr (fun he => h (List.mem_singleton.mp he).symm)
    omega

theorem count_append_pair (ts : List String) (t u x : String) :
    (ts ++ [t, u]).count x =
      ts.count x + (if t = x then 1 else 0) + (if u = x then 1 else 0) := by
  by_cases h : t = x <;> by_cases h2 : u = x
  · subst h; subst h2; simp [List.count_append, List.count_cons]
  · subst h; simp [List.count_append, List.count_cons, h2]
  · subst h2; simp [List.count_append, List.count_cons, h]
  · simp [List.count_append, List.count_cons, h, h2]

/-! ## A case analysis of one tokenizer step

`tokenStep_spec` shows that every iteration of the scanning loop either
recurses with a strictly larger cursor while preserving the parenthesis
count invariant, or stops with a non-fuel error that is never the
plain-variable invalid-name rejection, whose index, for the
missing-expression-after-lambda diagnostic, is the index of the first
backslash of the whole line, and which can be the after-backslash
invalid-name rejection only when the line holds a non-ASCII letter (a
character on which `py_isalpha` is true but which is not an ASCII
letter), or succeeds at end of input with the padded token list. -/

theorem tokenStep_spec
    (recur : List Char → Nat → List String → Nat →
      Except TokError (List String))
    (s : List Char) (i : Nat) (tokens : List String) (op : Nat) :
    (∃ i' ts op', tokenStep recur s i tokens op = recur s i' (tokens ++ ts) op'
        ∧ i < s.length ∧ i < i' ∧
        (tokens.count ")" + op ≤ tokens.count "(" →
          (tokens ++ ts).count ")" + op' ≤ (tokens ++ ts).count "(")) ∨
    (∃ e, tokenStep recur s i tokens op = .error e ∧
        tokFuelErr (.error e) = false ∧
        invalidVarNameErr (.error e) = false ∧
        (∀ j, e = .missingExprAfterLambda j → j = s.indexOf '\\') ∧
        (∀ name j, e = .invalidVarAfterBackslash name j →
          ∃ c, c ∈ s ∧ py_isalpha c = true ∧ ¬ (c ∈ alphabet_chars))) ∨
    (s.length ≤ i ∧ op = 0 ∧
        tokenStep recur s i tokens op = .ok (pad_tokens tokens)) := by
  delta tokenStep
  by_cases hi : i < s.length
  · rw [dif_pos hi]
    by_cases hsp : py_isspace (s.get ⟨i, hi⟩) = true
    · rw [if_pos hsp]
      refine Or.inl ⟨i+1, [], op, by simp, hi, Nat.lt_succ_self i, ?_⟩
      intro h; simpa using h
    · rw [if_neg hsp]
      by_cases hvc : s.get ⟨i, hi⟩ ∈ all_valid_chars
      · rw [if_neg (not_not_intro hvc)]
        by_cases halpha : py_isalpha (s.get ⟨i, hi⟩) = true
        · rw [if_pos halpha]
          by_cases hval :
              is_valid_var_name
                ⟨(collect_var s (i+1) [s.get ⟨i, hi⟩]).1⟩ = true
          · rw [if_pos hval]
            refine Or.inl ⟨_, [⟨(collect_var s (i+1) [s.get ⟨i, hi⟩]).1⟩], op,
              rfl, hi, ?_, ?_⟩
            · have := collect_var_le s (i+1) [s.get ⟨i, hi⟩]; omega
            · intro hinv
              have hne := valid_name_ne_paren hval
              rw [count_append_singleton, count_append_singleton,
                if_neg hne.1, if_neg hne.2.1]
              omega
          · exact absurd
              (is_valid_var_name_collect _ _ _
                (alphabet_of_py_isalpha_valid halpha hvc))
              hval
        · rw [if_neg halpha]
          by_cases hop : s.get ⟨i, hi⟩ = '('
          · rw [if_pos hop]
            by_cases hep : i+1 < s.length ∧ s.getD (i+1) ' ' = ')'
            · rw [if_pos hep]
              exact Or.inr (Or.inl ⟨_, rfl, rfl, rfl, fun j h =>
                TokError.noConfusion h, fun nm j2 h2 => TokError.noConfusion h2⟩)
            · rw [if_neg hep]
              refine Or.inl ⟨i+1, ["("], op + 1, rfl, hi, Nat.lt_succ_self i, ?_⟩
              intro hinv
              rw [count_append_singleton, count_append_singleton,
                if_neg (by decide : ¬ (("(" : String) = ")")),
                if_pos (rfl : ("(" : String) = "(")]
              omega
          · rw [if_neg hop]
            by_cases hcp : s.get ⟨i, hi⟩ = ')'
            · rw [if_pos hcp]
              by_cases hz : op = 0
              · rw [if_pos hz]
                exact Or.inr (Or.inl ⟨_, rfl, rfl, rfl, fun j h =>
                  TokError.noConfusion h, fun nm j2 h2 => TokError.noConfusion h2⟩)
              · rw [if_neg hz]
                refine Or.inl ⟨i+1, [")"], op - 1, rfl, hi, Nat.lt_succ_self i, ?_⟩
                intro hinv
                rw [count_append_singleton, count_append_singleton,
                  if_pos (rfl : (")" : String) = ")"),
                  if_neg (by decide : ¬ ((")" : String) = "("))]
                omega
            · rw [if_neg hcp]
              by_cases hbs : s.get ⟨i, hi⟩ = '\\'
              · rw [if_pos hbs]
                by_cases hsp2 : i+1 < s.length ∧ py_isspace (s.getD (i+1) ' ') = true
                · rw [if_pos hsp2]
                  exact Or.inr (Or.inl ⟨_, rfl, rfl, rfl, fun j h =>
                    TokError.noConfusion h, fun nm j2 h2 => TokError.noConfusion h2⟩)
                · rw [if_neg hsp2]
                  by_cases hnv : i+1 = s.length ∨ ¬ py_isalpha (s.getD (i+1) ' ') = true
                  · rw [if_pos hnv]
                    exact Or.inr (Or.inl ⟨_, rfl, rfl, rfl, fun j h =>
                      TokError.noConfusion h, fun nm j2 h2 => TokError.noConfusion h2⟩)
                  · rw [if_neg hnv]
                    have halpha2 : py_isalpha (s.getD (i+1) ' ') = true := by
                      by_contra hn
                      exact hnv (Or.inr hn)
                    by_cases hval2 :
                        is_valid_var_name
                          ⟨(collect_var s (i+2) [s.getD (i+1) ' ']).1⟩ = true
                    · rw [if_pos hval2]
                      by_cases hmiss :
                          s.length ≤ (collect_var s (i+2) [s.getD (i+1) ' ']).2 ∨
                            (¬ (s.getD (collect_var s (i+2) [s.getD (i+1) ' ']).2 ' '
                                  ∈ all_valid_chars) ∧
                              ¬ py_isspace
                                  (s.getD (collect_var s (i+2) [s.getD (i+1) ' ']).2 ' ') = true)
                      · rw [if_pos hmiss]
                        refine Or.inr (Or.inl ⟨_, rfl, rfl, rfl, fun j h => ?_,
                          fun nm j2 h2 => TokError.noConfusion h2⟩)
                        injection h with h1
                        exact h1.symm
                      · rw [if_neg hmiss]
                        refine Or.inl ⟨_,
                          ["\\", ⟨(collect_var s (i+2) [s.getD (i+1) ' ']).1⟩],
                          op, rfl, hi, ?_, ?_⟩
                        · have := collect_var_le s (i+2) [s.getD (i+1) ' ']
                          omega
                        · intro hinv
                          have hne := valid_name_ne_paren hval2
                          rw [count_append_pair, count_append_pair,
                            if_neg hne.1, if_neg hne.2.1,
                            if_neg (by decide : ¬ (("\\" : String) = ")")),
                            if_neg (by decide : ¬ (("\\" : String) = "("))]
                          omega
                    · rw [if_neg hval2]
                      refine Or.inr (Or.inl ⟨_, rfl, rfl, rfl,
                        fun j h => TokError.noConfusion h,
                        fun nm j2 h2 => ?_⟩)
                      have hlen : i + 1 < s.length := by
                        rcases Nat.lt_or_ge (i+1) s.length with hx | hx
                        · exact hx
                        · exact absurd (Or.inl (by omega)) hnv
                      refine ⟨s.getD (i+1) ' ', getD_mem_of_lt hlen,
                        halpha2, ?_⟩
                      intro hc
                      exact hval2 (is_valid_var_name_collect _ _ _ hc)
              · rw [if_neg hbs]
                by_cases hdot : s.get ⟨i, hi⟩ = '.'
                · rw [if_pos hdot]
                  by_cases hnv2 : tokens.length = 0 ∨
                      ¬ strInCharList (tokens.getLastD "") var_chars = true ∨
                      ¬ ((s.getD (i-1) ' ') ∈ var_chars)
                  · rw [if_pos hnv2]
                    exact Or.inr (Or.inl ⟨_, rfl, rfl, rfl, fun j h =>
                      TokError.noConfusion h, fun nm j2 h2 => TokError.noConfusion h2⟩)
                  · rw [if_neg hnv2]
                    by_cases hmd : s.length ≤ i+1 ∨ s.getD (i+1) ' ' = ')'
                    · rw [if_pos hmd]
                      exact Or.inr (Or.inl ⟨_, rfl, rfl, rfl, fun j h =>
                        TokError.noConfusion h, fun nm j2 h2 => TokError.noConfusion h2⟩)
                    · rw [if_neg hmd]
                      refine Or.inl ⟨i+1, ["("], op, rfl, hi, Nat.lt_succ_self i, ?_⟩
                      intro hinv
                      rw [count_append_singleton, count_append_singleton,
                        if_neg (by decide : ¬ (("(" : String) = ")")),
                        if_pos (rfl : ("(" : String) = "(")]
                      omega
                · rw [if_neg hdot]
                  exact Or.inr (Or.inl ⟨_, rfl, rfl, rfl, fun j h =>
                    TokError.noConfusion h, fun nm j2 h2 => TokError.noConfusion h2⟩)
      · rw [if_pos hvc]
        exact Or.inr (Or.inl ⟨_, rfl, rfl, rfl, fun j h =>
          TokError.noConfusion h, fun nm j2 h2 => TokError.noConfusion h2⟩)
  · rw [dif_neg hi]
    by_cases hpos : 0 < op
    · rw [if_pos hpos]
      exact Or.inr (Or.inl ⟨_, rfl, rfl, rfl, fun j h =>
        TokError.noConfusion h, fun nm j2 h2 => TokError.noConfusion h2⟩)
    · rw [if_neg hpos]
      by_cases hemp : (pad_tokens tokens).isEmpty = true
      · rw [if_pos hemp]
        exact Or.inr (Or.inl ⟨_, rfl, rfl, rfl, fun j h =>
          TokError.noConfusion h, fun nm j2 h2 => TokError.noConfusion h2⟩)
      · rw [if_neg hemp]
        exact Or.inr (Or.inr ⟨Nat.le_of_not_lt hi,
          Nat.eq_zero_of_not_pos hpos, rfl⟩)

/-! ## C7: the invalid-variable-name rejections are unreachable -/

/-- C7 (counterexample): the backslash look-ahead accepts the Unicode
letter `é` (Python's `str.isalpha` is applied there with no
`all_valid_chars` guard), the collected name `é` then fails
`is_valid_var_name`, and the tokenizer rejects `\é` through the
`Invalid variable name after '\'` branch the claim declares
unreachable. -/
theorem C7_counterexample :
    parse_tokens "\\é" = .error (.invalidVarAfterBackslash "é" 2) := rfl

/-- C7 (amended): the plain-variable `Invalid variable name` rejection is
unreachable in every state of the scanning loop (its identifier-start
character is guarded by `all_valid_chars`), and on lines consisting solely
of ASCII characters the `Invalid variable name after '\'` rejection is
unreachable as well; only a non-ASCII letter in the unguarded backslash
look-ahead reaches the latter (see the counterexample). -/
theorem C7_invalid_name_limited :
    (∀ (fuel : Nat) (s : List Char) (i : Nat) (tokens : List String)
        (op : Nat),
        invalidVarNameErr (tokenLoopF fuel s i tokens op) = false) ∧
    (∀ (fuel : Nat) (s : List Char) (i : Nat) (tokens : List String)
        (op : Nat), (∀ c ∈ s, c.toNat < 128) →
        invalidNameErr (tokenLoopF fuel s i tokens op) = false) := by
  constructor
  · intro fuel
    induction fuel with
    | zero => intro s i tokens op; rfl
    | succ f ih =>
      intro s i tokens op
      rw [tokenLoopF]
      rcases tokenStep_spec (tokenLoopF f) s i tokens op with
        ⟨i', ts, op', heq, _, _, _⟩ | ⟨e, heq, _, hvn, _, _⟩ | ⟨_, _, heq⟩
      · rw [heq]; exact ih _ _ _ _
      · rw [heq]; exact hvn
      · rw [heq]; rfl
  · intro fuel
    induction fuel with
    | zero => intro s i tokens op _; rfl
    | succ f ih =>
      intro s i tokens op hascii
      rw [tokenLoopF]
      rcases tokenStep_spec (tokenLoopF f) s i tokens op with
        ⟨i', ts, op', heq, hb1, hb2, hb3⟩ | ⟨e, heq, hfu, hvn, hms, hbsl⟩ |
          ⟨hend, hop, heq⟩
      · rw [heq]; exact ih _ _ _ _ hascii
      · rw [heq]
        cases e <;>
          first
            | rfl
            | exact Bool.noConfusion hvn
            | (rename_i nm j
               obtain ⟨c, hcs, hca, hcn⟩ := hbsl nm j rfl
               exact absurd
                 (alphabet_of_py_isalpha_ascii hca (hascii c hcs)) hcn)
      · rw [heq]; rfl

/-- C7 witness: the ASCII half of the amended claim applied to a concrete
all-ASCII state of the scanning loop. -/
theorem C7_invalid_name_limited_witness :
    invalidNameErr (tokenLoopF 2 ['x'] 0 [] 0) = false :=
  C7_invalid_name_limited.2 2 ['x'] 0 [] 0 (by decide)


/-! ## C5: parenthesis balance of successful tokenizations -/

theorem pad_tokens_balanced (tokens : List String)
    (h : tokens.count ")" ≤ tokens.count "(") :
    (pad_tokens tokens).count "(" = (pad_tokens tokens).count ")" := by
  unfold pad_tokens
  by_cases hlt : tokens.count ")" < tokens.count "("
  · rw [if_pos hlt, List.count_append, List.count_append]
    have hc1 : List.count "("
        (List.replicate (tokens.count "(" - tokens.count ")")
          (")" : String)) = 0 := by
      rw [List.count_eq_zero]
      intro hm
      exact absurd (List.eq_of_mem_replicate hm) (by decide)
    have hc2 : List.count ")"
        (List.replicate (tokens.count "(" - tokens.count ")")
          (")" : String)) = tokens.count "(" - tokens.count ")" :=
      List.count_replicate_self _ _
    omega
  · rw [if_neg hlt]
    omega

theorem tokenLoop_balanced (fuel : Nat) :
    ∀ (s : List Char) (i : Nat) (tokens : List String) (op : Nat)
      (ts : List String),
      tokenLoopF fuel s i tokens op = .ok ts →
      tokens.count ")" + op ≤ tokens.count "(" →
      ts.count "(" = ts.count ")" := by
  induction fuel with
  | zero =>
    intro s i tokens op ts h _
    rw [tokenLoopF] at h
    exact Except.noConfusion h
  | succ f ih =>
    intro s i tokens op ts h hinv
    rw [tokenLoopF] at h
    rcases tokenStep_spec (tokenLoopF f) s i tokens op with
      ⟨i', ts2, op', heq, _, _, hpres⟩ | ⟨e, heq, _, _, _, _⟩ | ⟨_, hop0, heq⟩
    · rw [heq] at h
      exact ih _ _ _ _ _ h (hpres hinv)
    · rw [heq] at h
      exact Except.noConfusion h
    · rw [heq] at h
      injection h with h1
      rw [← h1]
      exact pad_tokens_balanced tokens (by omega)

/-- C5: whenever tokenization succeeds, the returned token sequence
contains exactly as many `(` tokens as `)` tokens (the balance being
established by the trailing `)` padding of `pad_tokens` at end of
input). -/
theorem C5_paren_balance (s : String) (ts : List String)
    (h : parse_tokens s = .ok ts) : ts.count "(" = ts.count ")" :=
  tokenLoop_balanced _ _ _ _ _ _ h (by simp)

/-- C5 witness: the balance theorem applied to the concrete successful
tokenization of `(\x.x)y`. -/
theorem C5_paren_balance_witness :
    (["(", "\\", "x", "(", "x", ")", "y", ")"] : List String).count "(" =
      (["(", "\\", "x", "(", "x", ")", "y", ")"] : List String).count ")" :=
  C5_paren_balance "(\\x.x)y" _ rfl

/-! ## C10: the reported index of the missing-expression-after-lambda
diagnostic -/

theorem missing_lambda_index (fuel : Nat) :
    ∀ (s : List Char) (i : Nat) (tokens : List String) (op : Nat) (j : Nat),
      tokenLoopF fuel s i tokens op = .error (.missingExprAfterLambda j) →
      j = s.indexOf '\\' := by
  induction fuel with
  | zero =>
    intro s i tokens op j h
    rw [tokenLoopF] at h
    injection h with h1
    exact TokError.noConfusion h1
  | succ f ih =>
    intro s i tokens op j h
    rw [tokenLoopF] at h
    rcases tokenStep_spec (tokenLoopF f) s i tokens op with
      ⟨i', ts2, op', heq, _, _, _⟩ | ⟨e, heq, _, _, hmiss, _⟩ | ⟨_, _, heq⟩
    · rw [heq] at h
      exact ih _ _ _ _ _ h
    · rw [heq] at h
      injection h with h1
      exact hmiss j h1
    · rw [heq] at h
      exact Except.noConfusion h

/-- C10: whenever the scanning loop rejects with the
missing-expression-after-lambda diagnostic, the reported index is
`s.index('\\')`, the index of the first backslash of the whole line; on
the concrete line `\x \y`, whose second backslash (at index `3`) triggers
the check, the reported index is `0`, not `3`. -/
theorem C10_missing_lambda_reported_index :
    (∀ (fuel : Nat) (s : List Char) (i : Nat) (tokens : List String)
        (op : Nat) (j : Nat),
        tokenLoopF fuel s i tokens op = .error (.missingExprAfterLambda j) →
        j = s.indexOf '\\') ∧
    parse_tokens "\\x \\y" = .error (.missingExprAfterLambda 0) ∧
    "\\x \\y".toList[3]? = some '\\' ∧
    "\\x \\y".toList.indexOf '\\' = 0 :=
  ⟨fun fuel => missing_lambda_index fuel, rfl, rfl, rfl⟩

/-- C10 witness: the universal part of the claim applied to the concrete
state that rejects `\x \y`. -/
theorem C10_missing_lambda_reported_index_witness :
    (0 : Nat) = "\\x \\y".toList.indexOf '\\' :=
  C10_missing_lambda_reported_index.1 6 "\\x \\y".toList 0 [] 0 0 rfl

/-! ## Fuel sufficiency of the tokenizer -/

theorem tokenLoopF_no_fuel_error (fuel : Nat) :
    ∀ (s : List Char) (i : Nat) (tokens : List String) (op : Nat),
      s.length - i < fuel →
      tokFuelErr (tokenLoopF fuel s i tokens op) = false := by
  induction fuel with
  | zero => intro s i tokens op h; omega
  | succ f ih =>
    intro s i tokens op hf
    rw [tokenLoopF]
    rcases tokenStep_spec (tokenLoopF f) s i tokens op with
      ⟨i', ts2, op', heq, hbound, hlt, _⟩ | ⟨e, heq, hfe, _, _, _⟩ | ⟨_, _, heq⟩
    · rw [heq]
      exact ih _ _ _ _ (by omega)
    · rw [heq]
      exact hfe
    · rw [heq]
      rfl

/-! ## Parser helper lemmas -/

theorem lt_of_getElem?_eq_some {tokens : List String} {pos : Nat}
    {t : String} (h : tokens[pos]? = some t) : pos < tokens.length := by
  by_contra hcon
  rw [List.getElem?_eq_none (Nat.le_of_not_lt hcon)] at h
  exact Option.noConfusion h

theorem expect_ok {tokens : List String} {pos : Nat} {v : String} {p' : Nat}
    (h : expect tokens pos v = .ok p') :
    p' = pos + 1 ∧ pos < tokens.length := by
  unfold expect at h
  split at h
  · exact Except.noConfusion h
  · rename_i t hm
    split at h
    · exact Except.noConfusion h
    · injection h with h1
      have hlt := lt_of_getElem?_eq_some hm
      have h2 : advance tokens pos = pos + 1 := by
        unfold advance; rw [if_pos hlt]
      rw [← h1]
      exact ⟨h2, hlt⟩

theorem expect_err {tokens : List String} {pos : Nat} {v : String}
    {e : ParseError} (h : expect tokens pos v = .error e) :
    ∃ found, e = .expectedTok v found := by
  unfold expect at h
  split at h
  · injection h with h1
    exact ⟨none, h1.symm⟩
  · rename_i t hm
    split at h
    · injection h with h1
      exact ⟨some t, h1.symm⟩
    · exact Except.noConfusion h

theorem parse_varF_ok {tokens : List String} {pos : Nat} {nd : Node}
    {p' : Nat} (h : parse_varF tokens pos = .ok (nd, p')) :
    p' = pos + 1 ∧ pos < tokens.length := by
  unfold parse_varF at h
  split at h
  · exact Except.noConfusion h
  · rename_i t hm
    split at h
    · injection h with h1
      have hlt := lt_of_getElem?_eq_some hm
      have h2 : advance tokens pos = pos + 1 := by
        unfold advance; rw [if_pos hlt]
      cases h1
      exact ⟨h2, hlt⟩
    · exact Except.noConfusion h

theorem parse_varF_err {tokens : List String} {pos : Nat} {e : ParseError}
    (h : parse_varF tokens pos = .error e) :
    ∃ found, e = .expectedVar found := by
  unfold parse_varF at h
  split at h
  · injection h with h1
    exact ⟨none, h1.symm⟩
  · rename_i t hm
    split at h
    · exact Except.noConfusion h
    · injection h with h1
      exact ⟨some t, h1.symm⟩

theorem parse_varF_no_fuel (tokens : List String) (pos : Nat) :
    parseFuelErr (parse_varF tokens pos) = false := by
  unfold parse_varF
  split
  · rfl
  · split
    · rfl
    · rfl

/-! ## Parser progress: every successful sub-parse advances the cursor -/

theorem parser_progress (fuel : Nat) :
    ∀ (tokens : List String) (pos : Nat),
      (∀ nd p', parse_termF fuel tokens pos = .ok (nd, p') →
        pos < p' ∧ p' ≤ tokens.length) ∧
      (∀ nd p', parse_lambda_exprF fuel tokens pos = .ok (nd, p') →
        pos < p' ∧ p' ≤ tokens.length) ∧
      (∀ nd p', parse_paren_exprF fuel tokens pos = .ok (nd, p') →
        pos < p' ∧ p' ≤ tokens.length) ∧
      (∀ left nd p', pos ≤ tokens.length →
        parse_expr_loopF fuel tokens pos left = .ok (nd, p') →
        pos ≤ p' ∧ p' ≤ tokens.length) ∧
      (∀ nd p', parse_exprF fuel tokens pos = .ok (nd, p') →
        pos < p' ∧ p' ≤ tokens.length) := by
  induction fuel with
  | zero =>
    intro tokens pos
    exact ⟨fun nd p' h => Except.noConfusion h,
      fun nd p' h => Except.noConfusion h,
      fun nd p' h => Except.noConfusion h,
      fun left nd p' _ h => Except.noConfusion h,
      fun nd p' h => Except.noConfusion h⟩
  | succ f ih =>
    intro tokens pos
    refine ⟨?_, ?_, ?_, ?_, ?_⟩
    · intro nd p' h
      rw [parse_termF] at h
      split at h
      · exact Except.noConfusion h
      · rename_i t hm
        split at h
        · obtain ⟨h1, h2⟩ := parse_varF_ok h
          omega
        · split at h
          · exact (ih tokens pos).2.1 _ _ h
          · split at h
            · exact (ih tokens pos).2.2.1 _ _ h
            · exact Except.noConfusion h
    · intro nd p' h
      rw [parse_lambda_exprF] at h
      split at h
      · exact Except.noConfusion h
      · rename_i pos1 hexp
        split at h
        · exact Except.noConfusion h
        · rename_i varNode pos2 hvar
          split at h
          · exact Except.noConfusion h
          · rename_i exprNode pos3 hexpr
            injection h with h1
            cases h1
            obtain ⟨he1, he2⟩ := expect_ok hexp
            obtain ⟨hv1, hv2⟩ := parse_varF_ok hvar
            obtain ⟨hx1, hx2⟩ := (ih tokens pos2).2.2.2.2 _ _ hexpr
            omega
    · intro nd p' h
      rw [parse_paren_exprF] at h
      split at h
      · exact Except.noConfusion h
      · rename_i pos1 hexp
        split at h
        · exact Except.noConfusion h
        · rename_i exprNode pos2 hexpr
          split at h
          · exact Except.noConfusion h
          · rename_i pos3 hexp2
            injection h with h1
            cases h1
            obtain ⟨he1, he2⟩ := expect_ok hexp
            obtain ⟨hx1, hx2⟩ := (ih tokens pos1).2.2.2.2 _ _ hexpr
            obtain ⟨he3, he4⟩ := expect_ok hexp2
            omega
    · intro left nd p' hle h
      rw [parse_expr_loopF] at h
      split at h
      · injection h with h1
        cases h1
        exact ⟨Nat.le_refl _, hle⟩
      · rename_i t hm
        split at h
        · injection h with h1
          cases h1
          exact ⟨Nat.le_refl _, hle⟩
        · split at h
          · exact Except.noConfusion h
          · rename_i right pos1 hterm
            obtain ⟨ht1, ht2⟩ := (ih tokens pos).1 _ _ hterm
            obtain ⟨hl1, hl2⟩ := (ih tokens pos1).2.2.2.1 _ _ _ ht2 h
            omega
    · intro nd p' h
      rw [parse_exprF] at h
      split at h
      · exact Except.noConfusion h
      · rename_i left pos1 hterm
        obtain ⟨ht1, ht2⟩ := (ih tokens pos).1 _ _ hterm
        obtain ⟨hl1, hl2⟩ := (ih tokens pos1).2.2.2.1 _ _ _ ht2 h
        omega

/-! ## Parser fuel sufficiency -/

theorem parser_no_fuel_error (fuel : Nat) :
    ∀ (tokens : List String) (pos : Nat),
      (4 * (tokens.length - pos) + 3 ≤ fuel →
        parseFuelErr (parse_termF fuel tokens pos) = false) ∧
      (4 * (tokens.length - pos) + 2 ≤ fuel →
        parseFuelErr (parse_lambda_exprF fuel tokens pos) = false) ∧
      (4 * (tokens.length - pos) + 2 ≤ fuel →
        parseFuelErr (parse_paren_exprF fuel tokens pos) = false) ∧
      (∀ left, 4 * (tokens.length - pos) + 5 ≤ fuel →
        parseFuelErr (parse_expr_loopF fuel tokens pos left) = false) ∧
      (4 * (tokens.length - pos) + 4 ≤ fuel →
        parseFuelErr (parse_exprF fuel tokens pos) = false) := by
  induction fuel with
  | zero =>
    intro tokens pos
    exact ⟨fun h => absurd h (by omega), fun h => absurd h (by omega),
      fun h => absurd h (by omega), fun left h => absurd h (by omega),
      fun h => absurd h (by omega)⟩
  | succ f ih =>
    intro tokens pos
    refine ⟨?_, ?_, ?_, ?_, ?_⟩
    · intro hf
      rw [parse_termF]
      split
      · rfl
      · rename_i t hm
        by_cases ha : py_str_isalpha t = true
        · rw [if_pos ha]
          exact parse_varF_no_fuel tokens pos
        · rw [if_neg ha]
          by_cases hb : t = "\\"
          · rw [if_pos hb]
            exact (ih tokens pos).2.1 (by omega)
          · rw [if_neg hb]
            by_cases hp : t = "("
            · rw [if_pos hp]
              exact (ih tokens pos).2.2.1 (by omega)
            · rw [if_neg hp]
              rfl
    · intro hf
      rw [parse_lambda_exprF]
      split
      · rename_i e hexp
        obtain ⟨found, rfl⟩ := expect_err hexp
        rfl
      · rename_i pos1 hexp
        split
        · rename_i e hvar
          obtain ⟨found, rfl⟩ := parse_varF_err hvar
          rfl
        · rename_i varNode pos2 hvar
          obtain ⟨he1, he2⟩ := expect_ok hexp
          obtain ⟨hv1, hv2⟩ := parse_varF_ok hvar
          split
          · rename_i e hexpr
            have hs := (ih tokens pos2).2.2.2.2 (by omega)
            rw [hexpr] at hs
            exact hs
          · rfl
    · intro hf
      rw [parse_paren_exprF]
      split
      · rename_i e hexp
        obtain ⟨found, rfl⟩ := expect_err hexp
        rfl
      · rename_i pos1 hexp
        obtain ⟨he1, he2⟩ := expect_ok hexp
        split
        · rename_i e hexpr
          have hs := (ih tokens pos1).2.2.2.2 (by omega)
          rw [hexpr] at hs
          exact hs
        · rename_i exprNode pos2 hexpr
          split
          · rename_i e hexp2
            obtain ⟨found, rfl⟩ := expect_err hexp2
            rfl
          · rfl
    · intro left hf
      rw [parse_expr_loopF]
      split
      · rfl
      · rename_i t hm
        split
        · rfl
        · have hlen := lt_of_getElem?_eq_some hm
          split
          · rename_i e hterm
            have hs := (ih tokens pos).1 (by omega)
            rw [hterm] at hs
            exact hs
          · rename_i right pos1 hterm
            obtain ⟨hp1, hp2⟩ := (parser_progress f tokens pos).1 _ _ hterm
            exact (ih tokens pos1).2.2.2.1 _ (by omega)
    · intro hf
      rw [parse_exprF]
      split
      · rename_i e hterm
        have hs := (ih tokens pos).1 (by omega)
        rw [hterm] at hs
        exact hs
      · rename_i left pos1 hterm
        obtain ⟨hp1, hp2⟩ := (parser_progress f tokens pos).1 _ _ hterm
        exact (ih tokens pos1).2.2.2.1 _ (by omega)

/-! ## C8: termination of tokenizer and parser -/

/-- C8: with the fuel supplied by the wrappers (one unit per loop
iteration for the tokenizer, whose cursor strictly advances each
iteration; `4*length + 4` for the parser, whose cursor advances on every
successful sub-parse), the fuel-exhaustion result is unreachable: both
the tokenizer and the parser terminate on every input. -/
theorem C8_termination :
    (∀ s : String, tokFuelErr (parse_tokens s) = false) ∧
    (∀ tokens : List String, parseFuelErr (parse tokens) = false) :=
  ⟨fun s => tokenLoopF_no_fuel_error _ s.toList 0 [] 0 (by omega),
   fun tokens => (parser_no_fuel_error _ tokens 0).2.2.2.2 (by omega)⟩

/-! ## C4: left-associativity of application chains -/

theorem drop_cons_of_getElem? {tokens : List String} {pos : Nat} {t : String}
    (h : tokens[pos]? = some t) :
    tokens.drop pos = t :: tokens.drop (pos + 1) := by
  induction tokens generalizing pos with
  | nil => exact Option.noConfusion h
  | cons a l ihl =>
    cases pos with
    | zero =>
      rw [List.getElem?_cons_zero] at h
      injection h with h1
      subst h1
      simp
    | succ p =>
      rw [List.getElem?_cons_succ] at h
      rw [List.drop_succ_cons, ihl h, List.drop_succ_cons]

theorem parse_termF_alpha (fuel : Nat) (tokens : List String) (pos : Nat)
    (t : String) (hf : 1 ≤ fuel) (hm : tokens[pos]? = some t)
    (ha : py_str_isalpha t = true) :
    parse_termF fuel tokens pos = .ok (Node.mk t [], pos + 1) := by
  obtain ⟨g, rfl⟩ : ∃ g, fuel = g + 1 := ⟨fuel - 1, by omega⟩
  rw [parse_termF]
  split
  · rename_i hn
    rw [hm] at hn
    exact Option.noConfusion hn
  · rename_i t2 hm2
    rw [hm] at hm2
    injection hm2 with h2
    subst h2
    rw [if_pos ha]
    unfold parse_varF
    split
    · rename_i hn
      rw [hm] at hn
      exact Option.noConfusion hn
    · rename_i t3 hm3
      rw [hm] at hm3
      injection hm3 with h3
      subst h3
      rw [if_pos ha]
      have hlt := lt_of_getElem?_eq_some hm
      unfold advance
      rw [if_pos hlt]

theorem parse_expr_loopF_alpha (fuel : Nat) :
    ∀ (tokens : List String) (pos : Nat) (left : Node),
      (∀ t ∈ tokens, py_str_isalpha t = true) →
      pos ≤ tokens.length →
      2 * (tokens.length - pos) + 1 ≤ fuel →
      parse_expr_loopF fuel tokens pos left =
        .ok ((tokens.drop pos).foldl
          (fun acc t => Node.mk "application function" [acc, Node.mk t []])
          left, tokens.length) := by
  induction fuel with
  | zero =>
    intro tokens pos left _ _ h
    exact absurd h (by omega)
  | succ f ih =>
    intro tokens pos left hall hle hf
    rw [parse_expr_loopF]
    by_cases hlt : pos < tokens.length
    · have hm : tokens[pos]? = some tokens[pos] := List.getElem?_eq_getElem hlt
      split
      · rename_i hn
        rw [hm] at hn
        exact Option.noConfusion hn
      · rename_i t hm2
        have ht : tokens[pos] = t := by
          rw [hm] at hm2
          exact Option.some.inj hm2
        have htal : py_str_isalpha t = true := by
          rw [← ht]
          exact hall _ (List.getElem_mem hlt)
        have htne : ¬ (t = ")") := by
          intro heq
          rw [heq] at htal
          exact absurd htal (by decide)
        rw [if_neg htne]
        have hterm := parse_termF_alpha f tokens pos t (by omega) hm2 htal
        split
        · rename_i e heq
          rw [hterm] at heq
          exact Except.noConfusion heq
        · rename_i right pos1 heq
          rw [hterm] at heq
          injection heq with h1
          cases h1
          rw [ih tokens (pos+1) _ hall (by omega) (by omega)]
          have hdrop : tokens.drop pos = t :: tokens.drop (pos + 1) :=
            drop_cons_of_getElem? hm2
          rw [hdrop, List.foldl_cons]
    · have hpos : pos = tokens.length := by omega
      have hm : tokens[pos]? = none := List.getElem?_eq_none (by omega)
      split
      · subst hpos
        rw [List.drop_length]
        rfl
      · rename_i t hm2
        rw [hm] at hm2
        exact Option.noConfusion hm2

/-- C4 counterexample: `x1` and `y` are both Variable tokens (`x1` is a
valid variable name containing a digit), yet the parse of the two-token
sequence raises `Unexpected token: x1` instead of producing the
left-associated application fold the claim asserts. -/
theorem C4_counterexample :
    parse ["x1", "y"] = .error (.unexpectedToken "x1") ∧
    is_valid_var_name "x1" = true :=
  ⟨rfl, rfl⟩

/-- C4 (amended): for every token sequence of `N ≥ 1` purely alphabetic
variable tokens, the parse is the left-associated fold of `application
function` nodes over the leaves (for `N ≥ 2` the claimed nesting
`(((T1 T2) T3) … TN)`); variable tokens containing digits, which the
tokenizer also emits as Variable tokens, are excluded because
`parse_term` rejects them (claim C3). -/
theorem C4_left_assoc (first : String) (rest : List String)
    (h1 : py_str_isalpha first = true)
    (h2 : ∀ t ∈ rest, py_str_isalpha t = true) :
    parse (first :: rest) =
      .ok (rest.foldl
        (fun acc t => Node.mk "application function" [acc, Node.mk t []])
        (Node.mk first []), (first :: rest).length) := by
  unfold parse
  have hall : ∀ t ∈ first :: rest, py_str_isalpha t = true := by
    intro t ht
    rcases List.mem_cons.mp ht with h | h
    · rw [h]; exact h1
    · exact h2 t h
  have hm : (first :: rest)[0]? = some first := List.getElem?_cons_zero
  rw [show 4 * (first :: rest).length + 4 =
    (4 * (first :: rest).length + 3) + 1 from by omega, parse_exprF]
  have hterm := parse_termF_alpha (4 * (first :: rest).length + 3)
    (first :: rest) 0 first (by omega) hm h1
  split
  · rename_i e heq
    rw [hterm] at heq
    exact Except.noConfusion heq
  · rename_i left pos1 heq
    rw [hterm] at heq
    injection heq with h3
    cases h3
    rw [parse_expr_loopF_alpha (4 * (first :: rest).length + 3)
      (first :: rest) 1 _ hall (by simp only [List.length_cons]; omega)
      (by simp only [List.length_cons]; omega), List.drop_succ_cons,
      List.drop_zero]

/-- C4 witness: the amended theorem applied to the three-token sequence
`x y z` yields `Application(Application(x, y), z)`. -/
theorem C4_left_assoc_witness :
    parse ["x", "y", "z"] =
      .ok (Node.mk "application function"
        [Node.mk "application function" [Node.mk "x" [], Node.mk "y" []],
         Node.mk "z" []], 3) :=
  C4_left_assoc "x" ["y", "z"] (by decide) (by decide)

end A1
